import Mathlib

/-!
Verification of the task-continuity and safe-execution engine of the
distributed-ai-agent repository, against its natural-language specification.

The Python modules are shallowly embedded:
  - dictionaries keyed by strings become association lists,
  - the real filesystem becomes an association list from paths to contents,
  - fallible operations return a Bool or Option alongside the updated state,
  - external collaborators (the LLM-backed Change Proposer, the validator
    subprocess, the intent-improvement call) become function parameters,
    since the core only depends on their contract.
Timestamps (time.time) are passed in explicitly as natural numbers.
-/

/-! ## Association-list primitives (Python dict / JSON-file stores) -/

/-- First-match lookup in a string-keyed association list (Python dict access). -/
def lookupStr : List (String × String) → String → Option String
  | [], _ => none
  | e :: rest, p => if e.1 = p then some e.2 else lookupStr rest p

/-- Dict assignment: replace the first entry with the key, else append. -/
def insertStr : List (String × String) → String → String → List (String × String)
  | [], p, c => [(p, c)]
  | e :: rest, p, c => if e.1 = p then (p, c) :: rest else e :: insertStr rest p c

/-- Dict key deletion. -/
def eraseStr : List (String × String) → String → List (String × String)
  | [], _ => []
  | e :: rest, p => if e.1 = p then eraseStr rest p else e :: eraseStr rest p

theorem lookupStr_insertStr (m : List (String × String)) (p c q : String) :
    lookupStr (insertStr m p c) q = if q = p then some c else lookupStr m q := by
  induction m with
  | nil =>
    by_cases hqp : q = p
    · simp [insertStr, lookupStr, hqp]
    · simp [insertStr, lookupStr, hqp]
      exact fun h => hqp h.symm
  | cons e rest ih =>
    by_cases hep : e.1 = p
    · simp only [insertStr, if_pos hep, lookupStr]
      by_cases hqp : q = p
      · simp [hqp]
      · have hpq : ¬ p = q := fun h => hqp h.symm
        have heq : ¬ e.1 = q := fun h => hqp (by rw [← h, hep])
        simp [hpq, heq, hqp]
    · simp only [insertStr, if_neg hep, lookupStr, ih]
      by_cases heq : e.1 = q
      · have hqp : ¬ q = p := fun h => hep (heq.trans h)
        simp [heq, hqp]
      · simp [heq]

theorem lookupStr_eraseStr (m : List (String × String)) (p q : String) :
    lookupStr (eraseStr m p) q = if q = p then none else lookupStr m q := by
  induction m with
  | nil => simp [eraseStr, lookupStr]
  | cons e rest ih =>
    by_cases hep : e.1 = p
    · simp only [eraseStr, if_pos hep, ih, lookupStr]
      by_cases hqp : q = p
      · simp [hqp]
      · have heq : ¬ e.1 = q := fun h => hqp (h.symm.trans hep)
        simp [hqp, heq]
    · simp only [eraseStr, if_neg hep, lookupStr, ih]
      by_cases heq : e.1 = q
      · have hqp : ¬ q = p := fun h => hep (heq.trans h)
        simp [heq, hqp]
      · simp [heq]

/-! ## Shadow Workspace (ai_file_surgeon.py, class ShadowWorkspace)

The real filesystem is `FS`, the in-memory `shadow_files` dict is `Shadow`.
Paths are project-relative strings.  The `open(...).write` in `commit` is
modelled as an update to `FS`; the I/O-failure branch of `commit` (log and
return false with the staged value intact) is environment nondeterminism and
is not modelled — the claims under check concern the unstaged-path branch and
the success path. -/

abbrev FS := List (String × String)

abbrev Shadow := List (String × String)

/-- ShadowWorkspace.load_file: staged content if present, else read the real
file and cache it into the shadow map, else empty string. -/
def load_file (sh : Shadow) (fs : FS) (p : String) : String × Shadow :=
  match lookupStr sh p with
  | some c => (c, sh)
  | none =>
    match lookupStr fs p with
    | some c => (c, insertStr sh p c)
    | none => ("", sh)

/-- ShadowWorkspace.update_file: overwrite the staged value, no I/O. -/
def update_file (sh : Shadow) (p c : String) : Shadow :=
  insertStr sh p c

/-- ShadowWorkspace.commit: if the path is not in the shadow map return false
without touching the filesystem, else write the staged content to the real
file and return true. -/
def commit (sh : Shadow) (fs : FS) (p : String) : Bool × FS :=
  match lookupStr sh p with
  | none => (false, fs)
  | some c => (true, insertStr fs p c)

/-- ShadowWorkspace.rollback: discard the staged value for the path. -/
def rollback (sh : Shadow) (p : String) : Shadow :=
  eraseStr sh p

/-- ShadowWorkspace.rollback_all: clear the whole shadow map. -/
def rollback_all (_sh : Shadow) : Shadow :=
  []

/-- ShadowWorkspace.commit_all: commit every staged path in shadow-map order. -/
def commit_all (sh : Shadow) (fs : FS) : FS :=
  sh.foldl (fun acc e => (commit sh acc e.1).2) fs

/-- One client-visible Shadow Workspace operation, for stating trace
properties over arbitrary interleavings of the workspace API. -/
inductive WsOp where
  | load (p : String)
  | update (p c : String)
  | commitOp (p : String)
  | rollbackOp (p : String)
  | rollbackAll

def runOp (st : Shadow × FS) : WsOp → Shadow × FS
  | .load p => ((load_file st.1 st.2 p).2, st.2)
  | .update p c => (update_file st.1 p c, st.2)
  | .commitOp p => (st.1, (commit st.1 st.2 p).2)
  | .rollbackOp p => (rollback st.1 p, st.2)
  | .rollbackAll => (rollback_all st.1, st.2)

def runOps (ops : List WsOp) (st : Shadow × FS) : Shadow × FS :=
  ops.foldl runOp st

/-- An operation mentions path p as a load or a staging update. -/
def touchesPath (op : WsOp) (p : String) : Bool :=
  match op with
  | .load q => q = p
  | .update q _ => q = p
  | _ => false

theorem load_file_shadow_cases (sh : Shadow) (fs : FS) (q : String) :
    (load_file sh fs q).2 = sh ∨ ∃ c, (load_file sh fs q).2 = insertStr sh q c := by
  unfold load_file
  cases lookupStr sh q with
  | some c => exact Or.inl rfl
  | none =>
    cases lookupStr fs q with
    | some c => exact Or.inr ⟨c, rfl⟩
    | none => exact Or.inl rfl

theorem runOps_cons (op : WsOp) (ops : List WsOp) (st : Shadow × FS) :
    runOps (op :: ops) st = runOps ops (runOp st op) := rfl

theorem unstaged_stays_unstaged (ops : List WsOp) (p : String) :
    ∀ st : Shadow × FS, lookupStr st.1 p = none →
      (∀ op ∈ ops, touchesPath op p = false) →
      lookupStr (runOps ops st).1 p = none := by
  induction ops with
  | nil => intro st h _; simpa [runOps] using h
  | cons op rest ih =>
    intro st h hops
    have hop : touchesPath op p = false := hops op (List.mem_cons_self op rest)
    have hrest : ∀ o ∈ rest, touchesPath o p = false :=
      fun o ho => hops o (List.mem_cons_of_mem op ho)
    have hstep : lookupStr (runOp st op).1 p = none := by
      cases op with
      | load q =>
        have hq : ¬ q = p := by simpa [touchesPath] using hop
        show lookupStr (load_file st.1 st.2 q).2 p = none
        rcases load_file_shadow_cases st.1 st.2 q with h2 | ⟨c, h2⟩
        · rw [h2]; exact h
        · rw [h2, lookupStr_insertStr, if_neg (fun hpq : p = q => hq hpq.symm)]
          exact h
      | update q c =>
        have hq : ¬ q = p := by simpa [touchesPath] using hop
        show lookupStr (insertStr st.1 q c) p = none
        rw [lookupStr_insertStr, if_neg (fun hpq : p = q => hq hpq.symm)]
        exact h
      | commitOp q => exact h
      | rollbackOp q =>
        show lookupStr (eraseStr st.1 q) p = none
        rw [lookupStr_eraseStr]
        by_cases hpq : p = q <;> simp [hpq, h]
      | rollbackAll => rfl
    rw [runOps_cons]
    exact ih (runOp st op) hstep hrest

/-- Claim C4 (amended): commit(path) performs no filesystem write and returns
false for every operation sequence in which the path was neither staged via
update_file nor loaded via load_file (load_file of an existing real file also
places the real content in the staging map, after which commit writes). -/
theorem commit_unstaged_is_noop (ops : List WsOp) (fs0 : FS) (p : String)
    (h : ∀ op ∈ ops, touchesPath op p = false) :
    commit (runOps ops ([], fs0)).1 (runOps ops ([], fs0)).2 p
      = (false, (runOps ops ([], fs0)).2) := by
  have hnone : lookupStr (runOps ops ([], fs0)).1 p = none :=
    unstaged_stays_unstaged ops p ([], fs0) (by simp [lookupStr]) h
  unfold commit
  rw [hnone]

/-- Witness for C4's amended theorem at a concrete trace: operations on other
paths never make commit "a.txt" write. -/
theorem commit_unstaged_is_noop_witness :
    commit (runOps [WsOp.update "b.txt" "y", WsOp.load "c.txt"]
        ([], [("c.txt", "z")])).1
      (runOps [WsOp.update "b.txt" "y", WsOp.load "c.txt"]
        ([], [("c.txt", "z")])).2 "a.txt"
      = (false, (runOps [WsOp.update "b.txt" "y", WsOp.load "c.txt"]
        ([], [("c.txt", "z")])).2) :=
  commit_unstaged_is_noop [WsOp.update "b.txt" "y", WsOp.load "c.txt"]
    [("c.txt", "z")] "a.txt" (by decide)

/-- Counterexample to claim C4 as stated: the path "a.txt" is never staged via
update_file (the only operation run is load_file), yet commit returns true and
performs the write, because load_file of an existing real file places its
content in the staging map. -/
theorem commit_after_mere_load_writes :
    (commit (runOps [WsOp.load "a.txt"] ([], [("a.txt", "x")])).1
        [("a.txt", "x")] "a.txt").1 = true := by
  decide

/-- Claim C5: rollback(path) followed by load(path) returns the pre-staged
content: the real file's current content, or the empty string when the real
file does not exist, for every prior staging history of the path. -/
theorem rollback_then_load_reads_real_file (sh : Shadow) (fs : FS) (p : String) :
    (load_file (rollback sh p) fs p).1 = (lookupStr fs p).getD "" := by
  unfold load_file rollback
  rw [lookupStr_eraseStr]
  simp only [if_pos rfl]
  cases h : lookupStr fs p <;> simp [h]

/-! ## Task Store (task_state_manager.py, class TaskStateManager)

One project's task store.  `load_all_tasks` returns one task per file of the
project's storage directory, in os.listdir's enumeration order; that order is
an environment input which the filesystem does not guarantee to be creation
order, so a Store here is the task list in an arbitrary enumeration order.
Python's free-form `updates` dict of `update_task` is embedded as
the concrete field update each call site denotes.  `time.time()` is the
explicit argument `now`.  Fields not touched by any claim (current_step,
github metadata, tags, notes, blocks) are omitted. -/

structure TaskState where
  task_id : String
  title : String := ""
  priority : String := "medium"
  status : String := "pending"
  progress : Nat := 0
  created_at : Nat := 0
  started_at : Option Nat := none
  completed_at : Option Nat := none
  result : Option String := none
  error : Option String := none
  retry_count : Nat := 0
  max_retries : Nat := 3
  depends_on : List String := []
deriving DecidableEq

abbrev Store := List TaskState

/-- TaskStateManager.load_task within one project: first task with the id. -/
def load_task (s : Store) (id : String) : Option TaskState :=
  s.find? (fun t => t.task_id = id)

/-- TaskStateManager.save_task: replace the record with the same id, else
append (dict/file-per-task assignment). -/
def save_task : Store → TaskState → Store
  | [], t => [t]
  | u :: rest, t => if u.task_id = t.task_id then t :: rest else u :: save_task rest t

/-- TaskStateManager.update_task: load, apply the field updates, save; returns
false and leaves the store unchanged when the id is absent. -/
def update_task (s : Store) (id : String) (f : TaskState → TaskState) : Bool × Store :=
  match load_task s id with
  | none => (false, s)
  | some t => (true, save_task s (f t))

/-- TaskStateManager.start_task: unconditionally sets status running and
records the start time. -/
def start_task (s : Store) (id : String) (now : Nat) : Bool × Store :=
  update_task s id (fun t =>
    { t with status := "running", started_at := some now })

/-- TaskStateManager.complete_task. -/
def complete_task (s : Store) (id : String) (result : String) (now : Nat) : Bool × Store :=
  update_task s id (fun t =>
    { t with status := "completed", completed_at := some now,
             progress := 100, result := some result })

/-- TaskStateManager.fail_task: increments the retry count, then retrying
while the count is below the bound, else failed. -/
def fail_task (s : Store) (id : String) (err : String) : Bool × Store :=
  match load_task s id with
  | none => (false, s)
  | some t =>
    let rc := t.retry_count + 1
    let st := if rc < t.max_retries then "retrying" else "failed"
    update_task s id (fun u =>
      { u with status := st, error := some err, retry_count := rc })

/-- Python priority_order dict with default 999. -/
def priority_order (p : String) : Nat :=
  if p = "critical" then 0
  else if p = "high" then 1
  else if p = "medium" then 2
  else if p = "low" then 3
  else 999

def pkey (t : TaskState) : Nat := priority_order t.priority

/-- Stable insertion of one task into a priority-sorted list (a task is
placed before the first task of not-smaller key, so equal-priority tasks
keep their original relative order, as Python's stable list.sort does). -/
def insertByPriority (x : TaskState) : List TaskState → List TaskState
  | [] => [x]
  | y :: ys =>
    if pkey x ≤ pkey y then x :: y :: ys else y :: insertByPriority x ys

/-- Stable sort by priority key, embedding ready_tasks.sort(...). -/
def sortByPriority : List TaskState → List TaskState
  | [] => []
  | x :: xs => insertByPriority x (sortByPriority xs)

/-- The ready set of get_next_task: pending/retrying tasks all of whose
dependencies are completed, in load_all_tasks' enumeration order. -/
def readyTasks (s : Store) : List TaskState :=
  let available := s.filter (fun t => t.status = "pending" || t.status = "retrying")
  let completed_ids := (s.filter (fun t => t.status = "completed")).map (fun t => t.task_id)
  available.filter (fun t => t.depends_on.all (fun d => completed_ids.contains d))

/-- TaskStateManager.get_next_task: filter pending/retrying (early return on
an empty filter, as in the source), drop tasks with an uncompleted dependency
(the source's ready_tasks list is the definition readyTasks above),
stable-sort by priority, return the first. -/
def get_next_task (s : Store) : Option TaskState :=
  let available := s.filter (fun t => t.status = "pending" || t.status = "retrying")
  if available.isEmpty then none
  else if (readyTasks s).isEmpty then none
  else (sortByPriority (readyTasks s)).head?

/-- The executor loop of autonomous_executor_v2.execute_tasks, projected onto
the Task Store: it walks the generated task list in order and, for each entry,
calls start_task with no dependency check, then complete_task or fail_task
according to the externally-determined execution outcome (session bookkeeping,
progress display and checkpoints do not touch the Task Store and are
omitted). -/
def execute_tasks_loop (s : Store) (ids : List String) (execOk : String → Bool) (now : Nat) : Store :=
  ids.foldl (fun st id =>
    let st1 := (start_task st id now).2
    if execOk id then (complete_task st1 id "ok" now).2
    else (fail_task st1 id "execution error").2) s

theorem load_save_same (s : Store) (t : TaskState) :
    load_task (save_task s t) t.task_id = some t := by
  induction s with
  | nil => simp [save_task, load_task, List.find?]
  | cons u rest ih =>
    by_cases h : u.task_id = t.task_id
    · simp [save_task, h, load_task, List.find?]
    · simp only [save_task, if_neg h]
      simp only [load_task, List.find?] at ih ⊢
      simp [h, ih]

theorem load_task_after_save (s : Store) (u : TaskState) (id : String)
    (hid : u.task_id = id) : load_task (save_task s u) id = some u := by
  rw [← hid]
  exact load_save_same s u

theorem task_id_of_load (s : Store) (id : String) (t : TaskState)
    (h : load_task s id = some t) : t.task_id = id := by
  have := List.find?_some h
  simpa using this

/-- Claim C3 evaluated at the failing input: with T1 pending and T2 depending
on T1, the store operation start_task sets T2 running while T1 is not
completed, and the executor loop of execute_tasks (which starts each task of
its list in order, with no dependency check) runs and completes T2 even
though T1 failed its execution and never reached completed. -/
theorem executor_starts_task_with_unmet_dependency :
    ((load_task (start_task
        [{ task_id := "c3t1" }, { task_id := "c3t2", depends_on := ["c3t1"] }]
        "c3t2" 11).2 "c3t2").map TaskState.status = some "running"
      ∧ (load_task (start_task
        [{ task_id := "c3t1" }, { task_id := "c3t2", depends_on := ["c3t1"] }]
        "c3t2" 11).2 "c3t1").map TaskState.status = some "pending")
    ∧ ((load_task (execute_tasks_loop
        [{ task_id := "c3t1" }, { task_id := "c3t2", depends_on := ["c3t1"] }]
        ["c3t1", "c3t2"] (fun id => id = "c3t2") 5) "c3t1").map TaskState.status
          = some "retrying"
      ∧ (load_task (execute_tasks_loop
        [{ task_id := "c3t1" }, { task_id := "c3t2", depends_on := ["c3t1"] }]
        ["c3t1", "c3t2"] (fun id => id = "c3t2") 5) "c3t2").map TaskState.status
          = some "completed") := by
  decide

/-- Counterexample to claim C8 as stated: a Task Store operation (start_task)
does move a task out of the completed status — the store applies no
terminal-state guard. -/
theorem completed_task_restarted_counterexample :
    ({ task_id := "c8done", status := "completed", progress := 100 : TaskState}).status
        = "completed"
    ∧ (load_task (start_task
        [{ task_id := "c8done", status := "completed", progress := 100 }]
        "c8done" 7).2 "c8done").map TaskState.status = some "running" := by
  decide

/-- Claim C8 (amended): the Task Store operations check no status
precondition; start_task on any existing task unconditionally rewrites its
status to running (recording the start time), whatever the current status —
in particular failed and completed are not enforced as terminal states. -/
theorem start_task_ignores_current_status (s : Store) (id : String)
    (t : TaskState) (now : Nat) (h : load_task s id = some t) :
    load_task (start_task s id now).2 id
      = some { t with status := "running", started_at := some now } := by
  simp only [start_task, update_task, h]
  exact load_task_after_save s _ id (task_id_of_load s id t h)

/-- Witness for C8's amended theorem: a failed task with its retry budget
exhausted is nevertheless set back to running by start_task. -/
theorem start_task_ignores_current_status_witness :
    load_task (start_task
        [{ task_id := "c8f", status := "failed", retry_count := 3 }] "c8f" 9).2 "c8f"
      = some { task_id := "c8f", status := "running", retry_count := 3,
               started_at := some 9 } :=
  start_task_ignores_current_status
    [{ task_id := "c8f", status := "failed", retry_count := 3 }] "c8f"
    { task_id := "c8f", status := "failed", retry_count := 3 } 9 (by decide)

/-- Claim C9: start on an absent task identifier fails (the store signals the
absent-id failure by returning false, the embedding of the NotFoundError
outcome) and leaves the store unchanged; on an existing pending or retrying
task it returns true, sets the status to running and records the start
time. -/
theorem start_task_absent_fails_present_runs (s : Store) (id : String) (now : Nat) :
    (load_task s id = none → start_task s id now = (false, s))
    ∧ (∀ t, load_task s id = some t →
        t.status = "pending" ∨ t.status = "retrying" →
        (start_task s id now).1 = true
        ∧ load_task (start_task s id now).2 id
            = some { t with status := "running", started_at := some now }) := by
  constructor
  · intro h
    simp [start_task, update_task, h]
  · intro t h _
    refine ⟨by simp [start_task, update_task, h], ?_⟩
    simp only [start_task, update_task, h]
    exact load_task_after_save s _ id (task_id_of_load s id t h)

/-- Witness for C9 at a concrete store: a pending task is started, an absent
identifier is rejected with the store unchanged. -/
theorem start_task_absent_fails_present_runs_witness :
    start_task [{ task_id := "c9t" : TaskState }] "ghost" 4
        = (false, [{ task_id := "c9t" : TaskState }])
    ∧ load_task (start_task [{ task_id := "c9t" : TaskState }] "c9t" 4).2 "c9t"
        = some { task_id := "c9t", status := "running", started_at := some 4 } :=
  ⟨(start_task_absent_fails_present_runs [{ task_id := "c9t" }] "ghost" 4).1 (by decide),
   ((start_task_absent_fails_present_runs [{ task_id := "c9t" }] "c9t" 4).2
      { task_id := "c9t" } (by decide) (Or.inl (by decide))).2⟩

/-- Minimum priority key of a task list, none when empty. -/
def minKey : List TaskState → Option Nat
  | [] => none
  | t :: ts =>
    some (match minKey ts with
      | none => pkey t
      | some m => min (pkey t) m)

theorem minKey_eq_none (l : List TaskState) : minKey l = none ↔ l = [] := by
  cases l <;> simp [minKey]

theorem minKey_le (l : List TaskState) (m : Nat) :
    minKey l = some m → ∀ t ∈ l, m ≤ pkey t := by
  induction l generalizing m with
  | nil => intro hm; simp [minKey] at hm
  | cons x xs ih =>
    intro hm t ht
    cases hmk : minKey xs with
    | none =>
      have hxs : xs = [] := (minKey_eq_none xs).mp hmk
      subst hxs
      simp [minKey] at hm
      rcases List.mem_cons.mp ht with rfl | hmem
      · omega
      · simp at hmem
    | some mx =>
      simp [minKey, hmk] at hm
      rcases List.mem_cons.mp ht with rfl | hmem
      · omega
      · have := ih mx hmk t hmem
        omega

theorem minKey_mem (l : List TaskState) (m : Nat) :
    minKey l = some m → ∃ t ∈ l, pkey t = m := by
  induction l generalizing m with
  | nil => intro hm; simp [minKey] at hm
  | cons x xs ih =>
    intro hm
    cases hmk : minKey xs with
    | none =>
      simp [minKey, hmk] at hm
      exact ⟨x, List.mem_cons_self x xs, hm⟩
    | some mx =>
      simp [minKey, hmk] at hm
      rcases Nat.le_total (pkey x) mx with hle | hle
      · refine ⟨x, List.mem_cons_self x xs, ?_⟩
        omega
      · obtain ⟨t, htl, htm⟩ := ih mx hmk
        refine ⟨t, List.mem_cons_of_mem x htl, ?_⟩
        omega

theorem insertByPriority_ne_nil (x : TaskState) (l : List TaskState) :
    insertByPriority x l ≠ [] := by
  cases l with
  | nil => simp [insertByPriority]
  | cons y ys =>
    simp only [insertByPriority]
    split <;> simp

theorem sortByPriority_eq_nil (l : List TaskState) :
    sortByPriority l = [] ↔ l = [] := by
  cases l with
  | nil => simp [sortByPriority]
  | cons x xs =>
    simp only [sortByPriority]
    constructor
    · intro h; exact absurd h (insertByPriority_ne_nil x (sortByPriority xs))
    · intro h; cases h

/-- The head of the stable priority sort is the first list element attaining
the minimum key — Python's stable list.sort followed by taking element 0. -/
theorem head_sortByPriority (l : List TaskState) :
    (sortByPriority l).head? =
      match minKey l with
      | none => none
      | some m => l.find? (fun t => pkey t == m) := by
  induction l with
  | nil => rfl
  | cons x xs ih =>
    cases hmk : minKey xs with
    | none =>
      have hxs : xs = [] := (minKey_eq_none xs).mp hmk
      subst hxs
      simp [sortByPriority, insertByPriority, minKey, List.find?]
    | some mx =>
      have hxs_ne : xs ≠ [] := by
        intro h; subst h; simp [minKey] at hmk
      cases hs : sortByPriority xs with
      | nil => exact absurd ((sortByPriority_eq_nil xs).mp hs) hxs_ne
      | cons z zs =>
        have ihz : xs.find? (fun t => pkey t == mx) = some z := by
          have h2 := ih
          rw [hmk, hs] at h2
          simpa using h2.symm
        have hzkey : pkey z = mx := by
          have := List.find?_some ihz
          simpa using this
        show (insertByPriority x (sortByPriority xs)).head? = _
        rw [hs]
        by_cases hle : pkey x ≤ pkey z
        · have hminx : min (pkey x) mx = pkey x := by omega
          simp [insertByPriority, hle, minKey, hmk, hminx, List.find?]
        · have hgt : mx < pkey x := by omega
          have hminx : min (pkey x) mx = mx := by omega
          have hne : (pkey x == mx) = false := by
            simp; omega
          simp [insertByPriority, hle, minKey, hmk, hminx, List.find?, hne, ihz]

theorem get_next_task_eq_head (s : Store) :
    get_next_task s = (sortByPriority (readyTasks s)).head? := by
  unfold get_next_task
  by_cases ha : (s.filter (fun t => t.status = "pending" || t.status = "retrying")).isEmpty
  · have hfe : s.filter (fun t => t.status = "pending" || t.status = "retrying") = [] := by
      simpa using ha
    have hready : readyTasks s = [] := by
      simp [readyTasks, hfe]
    simp [ha, hready, sortByPriority]
  · by_cases hr : (readyTasks s).isEmpty
    · have hready : readyTasks s = [] := by simpa using hr
      simp [ha, hr, hready, sortByPriority]
    · simp [ha, hr]

/-- Claim C6 (amended): get_next_task returns none exactly when no
pending/retrying task has all dependencies completed; when it returns a
task, that task is ready, has the highest priority among ready tasks
(critical before high before medium before low, via the numeric key), and
ties are broken by position in load_all_tasks' directory-enumeration order
(the first ready task attaining the key, by the stable sort) — an order
os.listdir does not guarantee to be creation order. -/
theorem get_next_task_correct (s : Store) :
    (get_next_task s = none ↔ readyTasks s = [])
    ∧ ∀ t, get_next_task s = some t →
        t ∈ readyTasks s
        ∧ (∀ u ∈ readyTasks s, pkey t ≤ pkey u)
        ∧ (readyTasks s).find? (fun u => pkey u == pkey t) = some t := by
  have heq := get_next_task_eq_head s
  constructor
  · rw [heq, head_sortByPriority]
    cases hmk : minKey (readyTasks s) with
    | none => simp [(minKey_eq_none (readyTasks s)).mp hmk]
    | some m =>
      simp only
      constructor
      · intro hf
        by_contra hne
        obtain ⟨t, htl, htm⟩ := minKey_mem (readyTasks s) m hmk
        have hnone := List.find?_eq_none.mp hf t htl
        simp [htm] at hnone
      · intro h
        rw [h] at hmk
        simp [minKey] at hmk
  · intro t ht
    rw [heq, head_sortByPriority] at ht
    cases hmk : minKey (readyTasks s) with
    | none =>
      rw [hmk] at ht
      simp at ht
    | some m =>
      rw [hmk] at ht
      simp only at ht
      have hmem : t ∈ readyTasks s := List.mem_of_find?_eq_some ht
      have hkey : pkey t = m := by
        have := List.find?_some ht
        simpa using this
      refine ⟨hmem, ?_, ?_⟩
      · intro u hu
        rw [hkey]
        exact minKey_le (readyTasks s) m hmk u hu
      · rw [hkey]
        exact ht

def c6TaskC : TaskState :=
  { task_id := "c6c", status := "pending", priority := "critical", depends_on := ["c6a"] }

def c6Store : Store :=
  [ { task_id := "c6a", status := "completed" },
    { task_id := "c6b", status := "pending", priority := "high", depends_on := ["c6a"] },
    c6TaskC,
    { task_id := "c6d", status := "pending", priority := "critical", depends_on := ["c6x"] } ]

/-- Witness for C6 at a concrete project: among the two ready tasks the
critical one is selected, ahead of the high-priority one and of the critical
task whose dependency is not completed. -/
theorem get_next_task_correct_witness :
    c6TaskC ∈ readyTasks c6Store
    ∧ (∀ u ∈ readyTasks c6Store, pkey c6TaskC ≤ pkey u)
    ∧ (readyTasks c6Store).find? (fun u => pkey u == pkey c6TaskC) = some c6TaskC :=
  (get_next_task_correct c6Store).2 c6TaskC (by decide)

def c6Early : TaskState := { task_id := "c6early", created_at := 0 }

def c6Late : TaskState := { task_id := "c6late", created_at := 1 }

/-- Counterexample to claim C6 as stated: ties are not broken by creation
order.  The order get_next_task sees is os.listdir's enumeration of the task
directory, an environment input the filesystem does not tie to creation
time; when a directory holding two equal-priority ready tasks is enumerated
in the reverse of their creation order — a legal listdir result for the very
same store — get_next_task returns the later-created task, not the
creation-order tie-winner. -/
theorem get_next_task_tie_not_creation_order :
    pkey c6Late = pkey c6Early
    ∧ readyTasks [c6Late, c6Early] = [c6Late, c6Early]
    ∧ get_next_task [c6Late, c6Early] = some c6Late
    ∧ c6Early.created_at < c6Late.created_at := by
  decide

/-! ## Execution loop with bounded self-correction
(production_agent.py, ProductionAgent._apply_edits_with_iteration)

The external collaborators are function parameters, per their contracts:
the AI Surgeon calls (create_file producing content for a path and intent;
apply_edit producing new content from a path, intent and current content)
return content or an error string; the validator takes the edited path and
the REAL filesystem (the tsc subprocess reads files on disk) and returns a
pass flag with diagnostic text; _improve_intent_from_error returns an
improved intent or none.  Logging, metrics counters and time.sleep are
omitted; everything that touches the Shadow Workspace or the real tree is
kept in source order. -/

structure AgentEnv where
  surgeonCreate : String → String → Except String String
  surgeonApply : String → String → String → Except String String
  validate : String → FS → Bool × String
  improve : String → String → FS → Option String

structure EditIntent where
  file : String
  operation : String
  intent : String
  improved_intent : Option String := none
deriving DecidableEq

structure EditResult where
  edit : EditIntent
  success : Bool
  attempts : Nat
  rolled_back : Bool
deriving DecidableEq

inductive AttemptOut where
  | passed
  | failTry
  | failValidation (err : String)

/-- The tail of one attempt: commit the staged path to the real tree, THEN
validate (this is the source order: shadow.commit on line 305 precedes
_validate_file on line 309); a commit failure raises and is caught by the
except branch (rollback), a validation failure rolls back only the in-memory
staged value. -/
def commitThenValidate (env : AgentEnv) (file : String) (sh : Shadow) (fs : FS) :
    Shadow × FS × AttemptOut :=
  let cm := commit sh fs file
  if cm.1 = false then (rollback sh file, cm.2, .failTry)
  else
    let v := env.validate file cm.2
    if v.1 then (sh, cm.2, .passed)
    else (rollback sh file, cm.2, .failValidation v.2)

/-- One attempt of the per-edit loop: surgeon call, stage into the shadow
workspace, commit, validate.  A surgeon failure raises ValueError, caught by
the except branch which rolls back the staged path. -/
def applyOneAttempt (env : AgentEnv) (edit : EditIntent) (intent : String)
    (sh : Shadow) (fs : FS) : Shadow × FS × AttemptOut :=
  if edit.operation = "create" then
    match env.surgeonCreate edit.file intent with
    | .error _ => (rollback sh edit.file, fs, .failTry)
    | .ok c => commitThenValidate env edit.file (update_file sh edit.file c) fs
  else
    let cur := load_file sh fs edit.file
    match env.surgeonApply edit.file intent cur.1 with
    | .error _ => (rollback cur.2 edit.file, fs, .failTry)
    | .ok c => commitThenValidate env edit.file (update_file cur.2 edit.file c) fs

/-- The `for attempt in range(3)` loop (1 initial + 2 retries), as a countdown
on the remaining attempts r (the Python attempt index is 3 - r).  On a
validation failure with retries remaining (attempt < 2, that is r > 1), the
intent is improved from the diagnostic and stored on the edit; the returned
Nat is the attempts count reported in the result record (attempt + 1 on
success, 3 on exhaustion). -/
def runAttempts (env : AgentEnv) :
    Nat → EditIntent → Shadow → FS → EditIntent × Shadow × FS × Bool × Nat
  | 0, edit, sh, fs => (edit, sh, fs, false, 3)
  | r + 1, edit, sh, fs =>
    let intent := edit.improved_intent.getD edit.intent
    let step := applyOneAttempt env edit intent sh fs
    match step.2.2 with
    | .passed => (edit, step.1, step.2.1, true, 3 - r)
    | .failTry => runAttempts env r edit step.1 step.2.1
    | .failValidation err =>
      let edit1 :=
        if r ≥ 1 then
          match env.improve intent err step.2.1 with
          | some im => { edit with improved_intent := some im }
          | none => edit
        else edit
      runAttempts env r edit1 step.1 step.2.1

/-- ProductionAgent._apply_edits_with_iteration: apply each edit with up to
3 attempts; a failed edit is recorded (success false, attempts 3,
rolled_back) and the loop continues with the next edit. -/
def apply_edits_with_iteration (env : AgentEnv) (edits : List EditIntent)
    (sh : Shadow) (fs : FS) : List EditResult × Shadow × FS :=
  edits.foldl
    (fun acc edit =>
      let r := runAttempts env 3 edit acc.2.1 acc.2.2
      (acc.1 ++ [{ edit := r.1, success := r.2.2.2.1, attempts := r.2.2.2.2,
                   rolled_back := !r.2.2.2.1 }],
        r.2.1, r.2.2.1))
    ([], sh, fs)

def c1Env : AgentEnv :=
  { surgeonCreate := fun _ _ => .error "unused"
    surgeonApply := fun _ _ _ => .ok "let x: string = 1"
    validate := fun _ _ => (false, "TS2322: type mismatch")
    improve := fun _ _ _ => none }

def c1Edit : EditIntent := { file := "c1.ts", operation := "modify", intent := "fix the type" }

/-- Claim C1 evaluated at the failing input: the validator never returns pass,
yet after the loop the real file holds the proposed content — the staged
content was written to the real filesystem (shadow.commit) before validation
ran, and the rollback on the validation-failure path discards only the
in-memory staged value. -/
theorem real_tree_written_despite_validation_failure :
    lookupStr (apply_edits_with_iteration c1Env [c1Edit] [] [("c1.ts", "let x: string = \x22a\x22")]).2.2 "c1.ts"
        = some "let x: string = 1"
    ∧ (apply_edits_with_iteration c1Env [c1Edit] [] [("c1.ts", "let x: string = \x22a\x22")]).1.all
        (fun r => r.success = false) = true := by
  decide

def c2Env : AgentEnv :=
  { surgeonCreate := fun _ _ => .error "unused"
    surgeonApply := fun p _ _ => if p = "c2a.ts" then .ok "bad content" else .ok "good content"
    validate := fun p _ => if p = "c2a.ts" then (false, "TS1005: syntax error") else (true, "")
    improve := fun _ _ _ => none }

def c2Edits : List EditIntent :=
  [ { file := "c2a.ts", operation := "modify", intent := "always rejected" },
    { file := "c2b.ts", operation := "modify", intent := "accepted" } ]

/-- Claim C2 evaluated at the failing input: an edit whose validation always
fails accumulates exactly 3 attempts (1 initial + 2 retries) and is reported
failed, and the run continues to the next edit (which succeeds) — but the
real file at the edited path ends as the last attempt's proposed content,
not byte-identical to its pre-task content, because every attempt commits
before validating. -/
theorem exhausted_retries_leave_real_file_modified :
    ((apply_edits_with_iteration c2Env c2Edits [] [("c2a.ts", "original a"), ("c2b.ts", "original b")]).1.map
        (fun r => (r.edit.file, r.success, r.attempts)))
        = [("c2a.ts", false, 3), ("c2b.ts", true, 1)]
    ∧ lookupStr [("c2a.ts", "original a"), ("c2b.ts", "original b")] "c2a.ts" = some "original a"
    ∧ lookupStr (apply_edits_with_iteration c2Env c2Edits [] [("c2a.ts", "original a"), ("c2b.ts", "original b")]).2.2 "c2a.ts"
        = some "bad content" := by
  decide

/-! ## Knowledge Graph (knowledge_graph.py, class KnowledgeGraph)

Components are keyed by component_id in an association list mirroring the
self.components dict.  _analyze_file's regex extraction of imports/exports
and the path-derived id, name and category are abstracted as the fields of a
SourceFile input record; the Component it stores always starts with empty
depends_on/used_by, as in the source.  Python str.lower is embedded as the
ASCII Char.toLower map (identifiers and import paths are ASCII), and the
`in` substring test as a char-list containment check. -/

structure Component where
  component_id : String
  name : String
  path : String := ""
  component_type : String := "utility"
  depends_on : List String := []
  used_by : List String := []
  imports : List String := []
  exports : List String := []
deriving DecidableEq

abbrev CompMap := List (String × Component)

def lookupComp : CompMap → String → Option Component
  | [], _ => none
  | e :: rest, i => if e.1 = i then some e.2 else lookupComp rest i

def updateComp : CompMap → String → (Component → Component) → CompMap
  | [], _, _ => []
  | e :: rest, i, f =>
    if e.1 = i then (e.1, f e.2) :: updateComp rest i f
    else e :: updateComp rest i f

def insertComp : CompMap → String → Component → CompMap
  | [], i, c => [(i, c)]
  | e :: rest, i, c => if e.1 = i then (i, c) :: rest else e :: insertComp rest i c

/-- Python `sub.startswith` over char lists. -/
def charsStartWith : List Char → List Char → Bool
  | [], _ => true
  | _ :: _, [] => false
  | a :: as, b :: bs => a == b && charsStartWith as bs

/-- Python `sub in s` substring containment over char lists. -/
def charsContain : List Char → List Char → Bool
  | sub, [] => sub.isEmpty
  | sub, x :: xs => charsStartWith sub (x :: xs) || charsContain sub xs

def lowerChars (l : List Char) : List Char := l.map Char.toLower

/-- Python import_path.split('/')[-1]: the characters after the last '/'. -/
def lastSegment (l : List Char) : List Char :=
  l.foldl (fun acc ch => if ch = '/' then [] else acc ++ [ch]) []

/-- KnowledgeGraph._matches_import: lowercase substring match in either
direction between the component name and the import path's last segment. -/
def matches_import (c : Component) (import_path : String) : Bool :=
  let component_name := lowerChars c.name.data
  let import_name := lowerChars (lastSegment import_path.data)
  charsContain component_name import_name || charsContain import_name component_name

/-- One analyzed source file: the id, name, category, imports and exports
that KnowledgeGraph._analyze_file derives by path manipulation and regex. -/
structure SourceFile where
  component_id : String
  name : String
  path : String := ""
  component_type : String := "utility"
  imports : List String := []
  exports : List String := []

/-- KnowledgeGraph._analyze_file: store a fresh Component for the file, with
empty relationship lists. -/
def analyze_file (m : CompMap) (f : SourceFile) : CompMap :=
  insertComp m f.component_id
    { component_id := f.component_id, name := f.name, path := f.path,
      component_type := f.component_type, imports := f.imports,
      exports := f.exports }

/-- The body of KnowledgeGraph._build_relationships' match branch: append the
dependency edge and the matching reverse edge, each only if absent. -/
def add_edge (m : CompMap) (aId bId : String) : CompMap :=
  let m1 := updateComp m aId (fun c =>
    if bId ∈ c.depends_on then c
    else { c with depends_on := c.depends_on ++ [bId] })
  updateComp m1 bId (fun c =>
    if aId ∈ c.used_by then c
    else { c with used_by := c.used_by ++ [aId] })

/-- KnowledgeGraph._build_relationships: for every component, for every one
of its import strings, link it to every other component matching the import.
The iteration reads each component's imports and each candidate's name, which
the loop never mutates, so they are read from the initial map; all edge
mutations accumulate. -/
def build_relationships (m0 : CompMap) : CompMap :=
  m0.foldl
    (fun acc p =>
      p.2.imports.foldl
        (fun acc2 imp =>
          m0.foldl
            (fun acc3 q =>
              if q.1 ≠ p.1 ∧ matches_import q.2 imp then add_edge acc3 p.1 q.1
              else acc3)
            acc2)
        acc)
    m0

/-- KnowledgeGraph.build_from_codebase: analyze every (non-ignored) source
file, then build the relationships. -/
def build_from_codebase (m : CompMap) (files : List SourceFile) : CompMap :=
  build_relationships (files.foldl analyze_file m)

/-- Both directions of the edge-symmetry invariant over a component map. -/
def SymGraph (m : CompMap) : Prop :=
  ∀ i j ci cj, lookupComp m i = some ci → lookupComp m j = some cj →
    (j ∈ ci.depends_on ↔ i ∈ cj.used_by)

theorem lookupComp_updateComp (m : CompMap) (i : String) (f : Component → Component)
    (j : String) :
    lookupComp (updateComp m i f) j
      = if j = i then (lookupComp m i).map f else lookupComp m j := by
  induction m with
  | nil => by_cases hji : j = i <;> simp [updateComp, lookupComp, hji]
  | cons e rest ih =>
    by_cases hji : j = i
    · subst hji
      by_cases hei : e.1 = j
      · simp [updateComp, lookupComp, hei]
      · simp [updateComp, lookupComp, hei, ih]
    · have hij : ¬ i = j := fun h => hji h.symm
      by_cases hei : e.1 = i
      · have hej : ¬ e.1 = j := fun h => hji (h.symm.trans hei)
        simp [updateComp, lookupComp, hei, hej, hji, hij, ih]
      · by_cases hej : e.1 = j
        · simp [updateComp, lookupComp, hei, hej, hji, hij]
        · simp [updateComp, lookupComp, hei, hej, hji, hij, ih]

theorem lookupComp_mem (m : CompMap) (i : String) (c : Component)
    (h : lookupComp m i = some c) : (i, c) ∈ m := by
  induction m with
  | nil => simp [lookupComp] at h
  | cons e rest ih =>
    obtain ⟨k, v⟩ := e
    by_cases hei : k = i
    · simp [lookupComp, hei] at h
      subst hei
      subst h
      exact List.mem_cons_self (k, v) rest
    · simp [lookupComp, hei] at h
      exact List.mem_cons_of_mem (k, v) (ih h)

theorem mem_lookupComp_isSome (m : CompMap) (i : String) (c : Component)
    (h : (i, c) ∈ m) : (lookupComp m i).isSome := by
  induction m with
  | nil => simp at h
  | cons e rest ih =>
    rcases List.mem_cons.mp h with rfl | hmem
    · simp [lookupComp]
    · by_cases hei : e.1 = i <;> simp [lookupComp, hei, ih hmem]

theorem mem_insertComp (m : CompMap) (i : String) (c : Component) (e : String × Component)
    (h : e ∈ insertComp m i c) : e ∈ m ∨ e = (i, c) := by
  induction m with
  | nil => simp [insertComp] at h; right; simp [h]
  | cons u rest ih =>
    by_cases hui : u.1 = i
    · simp only [insertComp, if_pos hui] at h
      rcases List.mem_cons.mp h with rfl | hmem
      · right; rfl
      · left; exact List.mem_cons_of_mem u hmem
    · simp only [insertComp, if_neg hui] at h
      rcases List.mem_cons.mp h with rfl | hmem
      · left; exact List.mem_cons_self e rest
      · rcases ih hmem with h2 | h2
        · left; exact List.mem_cons_of_mem u h2
        · right; exact h2

theorem foldl_preserves {α β : Type} (P : α → Prop) (f : α → β → α) :
    ∀ (l : List β) (init : α), P init →
      (∀ a b, b ∈ l → P a → P (f a b)) → P (l.foldl f init) := by
  intro l
  induction l with
  | nil => intro init h _; simpa using h
  | cons x xs ih =>
    intro init h hstep
    exact ih (f init x) (hstep init x (List.mem_cons_self x xs) h)
      (fun a b hb ha => hstep a b (List.mem_cons_of_mem x hb) ha)

theorem mem_depends_on_addDep (c : Component) (b x : String) :
    (x ∈ (if b ∈ c.depends_on then c
          else { c with depends_on := c.depends_on ++ [b] }).depends_on)
      ↔ (x ∈ c.depends_on ∨ x = b) := by
  by_cases h : b ∈ c.depends_on
  · simp only [if_pos h]
    constructor
    · exact Or.inl
    · rintro (hx | rfl)
      · exact hx
      · exact h
  · simp [h, List.mem_append]

theorem used_by_addDep (c : Component) (b : String) :
    (if b ∈ c.depends_on then c
     else { c with depends_on := c.depends_on ++ [b] }).used_by = c.used_by := by
  by_cases h : b ∈ c.depends_on <;> simp [h]

theorem mem_used_by_addUse (c : Component) (a x : String) :
    (x ∈ (if a ∈ c.used_by then c
          else { c with used_by := c.used_by ++ [a] }).used_by)
      ↔ (x ∈ c.used_by ∨ x = a) := by
  by_cases h : a ∈ c.used_by
  · simp only [if_pos h]
    constructor
    · exact Or.inl
    · rintro (hx | rfl)
      · exact hx
      · exact h
  · simp [h, List.mem_append]

theorem depends_on_addUse (c : Component) (a : String) :
    (if a ∈ c.used_by then c
     else { c with used_by := c.used_by ++ [a] }).depends_on = c.depends_on := by
  by_cases h : a ∈ c.used_by <;> simp [h]

theorem lookupComp_add_edge (m : CompMap) (a b x : String) (hab : a ≠ b) :
    lookupComp (add_edge m a b) x
      = if x = a then
          (lookupComp m a).map (fun c =>
            if b ∈ c.depends_on then c
            else { c with depends_on := c.depends_on ++ [b] })
        else if x = b then
          (lookupComp m b).map (fun c =>
            if a ∈ c.used_by then c
            else { c with used_by := c.used_by ++ [a] })
        else lookupComp m x := by
  unfold add_edge
  have hba : ¬ b = a := fun h => hab h.symm
  rw [lookupComp_updateComp, lookupComp_updateComp, lookupComp_updateComp]
  by_cases hxa : x = a
  · simp [hxa, hab, hba]
  · by_cases hxb : x = b <;> simp [hxa, hxb, hab, hba]


theorem add_edge_sym (m : CompMap) (a b : String) (hsym : SymGraph m)
    (ha : (lookupComp m a).isSome) (hb : (lookupComp m b).isSome) (hab : a ≠ b) :
    SymGraph (add_edge m a b) := by
  obtain ⟨ca, hca⟩ := Option.isSome_iff_exists.mp ha
  obtain ⟨cb, hcb⟩ := Option.isSome_iff_exists.mp hb
  have hba : ¬ b = a := fun h => hab h.symm
  intro i j ci cj hci hcj
  rw [lookupComp_add_edge m a b i hab] at hci
  rw [lookupComp_add_edge m a b j hab] at hcj
  by_cases hia : i = a
  · rw [if_pos hia, hca] at hci
    simp only [Option.map_some', Option.some.injEq] at hci
    by_cases hja : j = a
    · rw [if_pos hja, hca] at hcj
      simp only [Option.map_some', Option.some.injEq] at hcj
      rw [← hci, ← hcj, mem_depends_on_addDep, used_by_addDep, hia, hja]
      have hbase := hsym a a ca ca hca hca
      constructor
      · rintro (hx | hx)
        · exact hbase.mp hx
        · exact absurd hx hab
      · intro hx
        exact Or.inl (hbase.mpr hx)
    · by_cases hjb : j = b
      · rw [if_neg hja, if_pos hjb, hcb] at hcj
        simp only [Option.map_some', Option.some.injEq] at hcj
        rw [← hci, ← hcj, mem_depends_on_addDep, mem_used_by_addUse]
        constructor
        · intro _
          exact Or.inr hia
        · intro _
          exact Or.inr hjb
      · rw [if_neg hja, if_neg hjb] at hcj
        rw [← hci, mem_depends_on_addDep, hia]
        have hbase := hsym a j ca cj hca hcj
        constructor
        · rintro (hx | hx)
          · exact hbase.mp hx
          · exact absurd hx hjb
        · intro hx
          exact Or.inl (hbase.mpr hx)
  · by_cases hib : i = b
    · rw [if_neg hia, if_pos hib, hcb] at hci
      simp only [Option.map_some', Option.some.injEq] at hci
      by_cases hja : j = a
      · rw [if_pos hja, hca] at hcj
        simp only [Option.map_some', Option.some.injEq] at hcj
        rw [← hci, ← hcj, depends_on_addUse, used_by_addDep, hib, hja]
        exact hsym b a cb ca hcb hca
      · by_cases hjb : j = b
        · rw [if_neg hja, if_pos hjb, hcb] at hcj
          simp only [Option.map_some', Option.some.injEq] at hcj
          rw [← hci, ← hcj, depends_on_addUse, mem_used_by_addUse, hib, hjb]
          have hbase := hsym b b cb cb hcb hcb
          constructor
          · intro hx
            exact Or.inl (hbase.mp hx)
          · rintro (hx | hx)
            · exact hbase.mpr hx
            · exact absurd hx hba
        · rw [if_neg hja, if_neg hjb] at hcj
          rw [← hci, depends_on_addUse, hib]
          exact hsym b j cb cj hcb hcj
    · rw [if_neg hia, if_neg hib] at hci
      by_cases hja : j = a
      · rw [if_pos hja, hca] at hcj
        simp only [Option.map_some', Option.some.injEq] at hcj
        rw [← hcj, used_by_addDep, hja]
        exact hsym i a ci ca hci hca
      · by_cases hjb : j = b
        · rw [if_neg hja, if_pos hjb, hcb] at hcj
          simp only [Option.map_some', Option.some.injEq] at hcj
          rw [← hcj, mem_used_by_addUse, hjb]
          have hbase := hsym i b ci cb hci hcb
          constructor
          · intro hx
            exact Or.inl (hbase.mp hx)
          · rintro (hx | hx)
            · exact hbase.mpr hx
            · exact absurd hx hia
        · rw [if_neg hja, if_neg hjb] at hcj
          exact hsym i j ci cj hci hcj

theorem isSome_updateComp (m : CompMap) (i : String) (f : Component → Component)
    (x : String) :
    (lookupComp (updateComp m i f) x).isSome = (lookupComp m x).isSome := by
  rw [lookupComp_updateComp]
  by_cases hxi : x = i
  · rw [if_pos hxi, hxi]
    cases lookupComp m i <;> rfl
  · rw [if_neg hxi]

theorem isSome_add_edge (m : CompMap) (a b x : String) :
    (lookupComp (add_edge m a b) x).isSome = (lookupComp m x).isSome := by
  unfold add_edge
  rw [isSome_updateComp, isSome_updateComp]

/-- Invariant carried through the relationship-building folds: the map stays
symmetric and keeps exactly the component ids of the analyzed map. -/
def RelInv (m0 m : CompMap) : Prop :=
  SymGraph m ∧ ∀ x, (lookupComp m x).isSome = (lookupComp m0 x).isSome

theorem build_relationships_sym (m0 : CompMap) (hsym : SymGraph m0) :
    SymGraph (build_relationships m0) := by
  have main : RelInv m0 (build_relationships m0) := by
    unfold build_relationships
    apply foldl_preserves (RelInv m0)
    · exact ⟨hsym, fun x => rfl⟩
    · intro acc p hp hacc
      apply foldl_preserves (RelInv m0)
      · exact hacc
      · intro acc2 imp _ hacc2
        apply foldl_preserves (RelInv m0)
        · exact hacc2
        · intro acc3 q hq hacc3
          by_cases hcond : q.1 ≠ p.1 ∧ matches_import q.2 imp
          · rw [if_pos hcond]
            refine ⟨?_, ?_⟩
            · apply add_edge_sym _ _ _ hacc3.1
              · rw [hacc3.2 p.1]
                exact mem_lookupComp_isSome m0 p.1 p.2 hp
              · rw [hacc3.2 q.1]
                exact mem_lookupComp_isSome m0 q.1 q.2 hq
              · exact fun h => hcond.1 h.symm
            · intro x
              rw [isSome_add_edge, hacc3.2 x]
          · rw [if_neg hcond]
            exact hacc3
  exact main.1

theorem analyze_keeps_empty_edges (files : List SourceFile) (m : CompMap)
    (h : ∀ e ∈ m, e.2.depends_on = [] ∧ e.2.used_by = []) :
    ∀ e ∈ files.foldl analyze_file m, e.2.depends_on = [] ∧ e.2.used_by = [] := by
  apply foldl_preserves
    (fun mm => ∀ e ∈ mm, e.2.depends_on = [] ∧ e.2.used_by = []) analyze_file files m h
  intro mm f _ hmm e he
  unfold analyze_file at he
  rcases mem_insertComp mm f.component_id _ e he with h2 | h2
  · exact hmm e h2
  · rw [h2]
    exact ⟨rfl, rfl⟩

theorem empty_edges_sym (m : CompMap)
    (h : ∀ e ∈ m, e.2.depends_on = [] ∧ e.2.used_by = []) : SymGraph m := by
  intro i j ci cj hci hcj
  have h1 := h (i, ci) (lookupComp_mem m i ci hci)
  have h2 := h (j, cj) (lookupComp_mem m j cj hcj)
  rw [show (i, ci).2 = ci from rfl] at h1
  rw [show (j, cj).2 = cj from rfl] at h2
  rw [h1.1, h2.2]
  simp

/-- Claim C7: after build_from_codebase on a graph whose components carry no
pre-existing relationship edges (the fresh-build state: _analyze_file stores
every component with empty depends_on and used_by), the dependency edges are
symmetric: B is in A.depends_on exactly when A is in B.used_by. -/
theorem build_from_codebase_symmetric (m : CompMap) (files : List SourceFile)
    (h : ∀ e ∈ m, e.2.depends_on = [] ∧ e.2.used_by = []) :
    ∀ i j ci cj,
      lookupComp (build_from_codebase m files) i = some ci →
      lookupComp (build_from_codebase m files) j = some cj →
      (j ∈ ci.depends_on ↔ i ∈ cj.used_by) := by
  intro i j ci cj hci hcj
  unfold build_from_codebase at hci hcj
  exact build_relationships_sym _
    (empty_edges_sym _ (analyze_keeps_empty_edges files m h)) i j ci cj hci hcj

def c7FileA : SourceFile :=
  { component_id := "pages_alpha_tsx", name := "alpha", imports := ["../lib/beta"] }

def c7FileB : SourceFile :=
  { component_id := "lib_beta_ts", name := "beta", imports := ["../pages/alpha"] }

def c7Graph : CompMap := build_from_codebase [] [c7FileA, c7FileB]

def c7CompA : Component :=
  (lookupComp c7Graph "pages_alpha_tsx").getD { component_id := "", name := "" }

def c7CompB : Component :=
  (lookupComp c7Graph "lib_beta_ts").getD { component_id := "", name := "" }

/-- Witness for C7 on a concrete two-file build with mutual imports. -/
theorem build_from_codebase_symmetric_witness :
    "lib_beta_ts" ∈ c7CompA.depends_on ↔ "pages_alpha_tsx" ∈ c7CompB.used_by :=
  build_from_codebase_symmetric [] [c7FileA, c7FileB] (by simp)
    "pages_alpha_tsx" "lib_beta_ts" c7CompA c7CompB (by decide) (by decide)

/-! ## Dependents traversal (knowledge_graph.py, get_dependents /
find_affected_components)

The nested Python recursion (collect_deps recursing inside the for-loop over
used_by) terminates because every call on a fresh id first adds it to the
visited set; the embedding carries an explicit fuel bounding the recursion
depth, and get_dependents supplies fuel exceeding the number of components,
which the chain of distinct visited ids can never exhaust. -/

def collect_deps (m : CompMap) (recursive : Bool) :
    Nat → List String → List Component → String → List String × List Component
  | 0, visited, deps, _ => (visited, deps)
  | fuel + 1, visited, deps, compId =>
    if compId ∈ visited then (visited, deps)
    else
      let visited1 := visited ++ [compId]
      match lookupComp m compId with
      | none => (visited1, deps)
      | some comp =>
        comp.used_by.foldl
          (fun st depId =>
            match lookupComp m depId with
            | none => st
            | some dep =>
              if dep ∈ st.2 then st
              else
                if recursive then collect_deps m recursive fuel st.1 (st.2 ++ [dep]) depId
                else (st.1, st.2 ++ [dep]))
          (visited1, deps)

/-- KnowledgeGraph.get_dependents: empty for an unknown component, else the
accumulated dependents of the visited-set traversal over used_by edges. -/
def get_dependents (m : CompMap) (componentId : String) (recursive : Bool) :
    List Component :=
  match lookupComp m componentId with
  | none => []
  | some _ => (collect_deps m recursive (m.length + 1) [] [] componentId).2

/-- KnowledgeGraph.find_affected_components: the recursive dependents. -/
def find_affected_components (m : CompMap) (componentId : String) : List Component :=
  get_dependents m componentId true

def c10CompA : Component := { component_id := "cyc_a", name := "cyc_a", used_by := ["cyc_b"] }

def c10CompB : Component := { component_id := "cyc_b", name := "cyc_b", used_by := ["cyc_a"] }

def c10Graph : CompMap := [("cyc_a", c10CompA), ("cyc_b", c10CompB)]

/-- Claim C10: on a graph whose used-by relation is cyclic (each of the two
components is used by the other), the blast radius of cyc_a contains cyc_a
itself: the visited set stops the recursion, but the component was appended
to the dependents list before the cycle closed. -/
theorem find_affected_components_contains_self :
    "cyc_b" ∈ c10CompA.used_by ∧ "cyc_a" ∈ c10CompB.used_by
    ∧ c10CompA ∈ find_affected_components c10Graph "cyc_a" := by
  decide
